import Mathlib

/-!
Verification development for the session-bound generation orchestrator of
`src/worker.ts` (Cloudflare Worker of the recipe-generator repository).

Texts are modelled as `List Char`.  The inference client (`env.AI.run`) and
the Durable-Object history store are external collaborators: they are
modelled as an explicit behaviour record (`Fx`), universally quantified in
the theorems.  `replaceAll` / `includes` / `trim` are given executable
embeddings; functions whose JS originals loop over the string are written
with an explicit fuel equal to the string length so that they are
structurally recursive and kernel-evaluable.
-/

set_option maxHeartbeats 1000000

abbrev Text := List Char

namespace Worker

/-- The completion sentinel `END = "<<<END_OF_RECIPE>>>"` (worker.ts line 128). -/
def END : Text :=
  ['<', '<', '<', 'E', 'N', 'D', '_', 'O', 'F', '_', 'R', 'E', 'C', 'I', 'P', 'E', '>', '>', '>']

/-- JS `t.includes(p)`: `p` occurs as a contiguous substring of `t`. -/
def containsSub (p : Text) : Text → Bool
  | [] => p.isEmpty
  | c :: rest => p.isPrefixOf (c :: rest) || containsSub p rest

/-- ASCII whitespace used by JS `String.prototype.trim` on the texts involved. -/
def isWS (c : Char) : Bool := c == ' ' || c == '\n' || c == '\t' || c == '\r'

/-- JS `t.trim()`: strip leading and trailing whitespace. -/
def trimText (t : Text) : Text :=
  ((t.dropWhile isWS).reverse.dropWhile isWS).reverse

/-- JS `t.endsWith("\n")` (worker.ts line 153). -/
def endsWithNL (t : Text) : Bool :=
  match t.getLast? with
  | some c => c == '\n'
  | none => false

/-- One left-to-right non-overlapping pass removing every match of `END`,
    exactly as JS `t.replaceAll(END, "")` scans (worker.ts line 157).
    The fuel argument bounds the number of scanning steps; it is set to the
    length of the text by the wrapper `stripEnd`, which always suffices. -/
def stripEndF : Nat → Text → Text
  | 0, t => t
  | _ + 1, [] => []
  | fuel + 1, c :: rest =>
    if END.isPrefixOf (c :: rest) then stripEndF fuel (List.drop (END.length - 1) rest)
    else c :: stripEndF fuel rest

/-- JS `t.replaceAll(END, "")`. -/
def stripEnd (t : Text) : Text := stripEndF t.length t

/-- Greedy check that every occurrence of the character `'<'` in `t` lies
    inside a complete occurrence of the sentinel.  Texts satisfying this are
    the ones for which one-pass removal cannot splice a new sentinel
    occurrence together.  Same fuel discipline as `stripEndF`. -/
def sentinelCleanF : Nat → Text → Bool
  | 0, _ => true
  | _ + 1, [] => true
  | fuel + 1, c :: rest =>
    if END.isPrefixOf (c :: rest) then sentinelCleanF fuel (List.drop (END.length - 1) rest)
    else (c != '<') && sentinelCleanF fuel rest

/-- Wrapper of `sentinelCleanF` with adequate fuel. -/
def sentinelClean (t : Text) : Bool := sentinelCleanF t.length t

/-- Default model identifier (worker.ts line 49). -/
def DEFAULT_MODEL : String := "@cf/meta/llama-3.3-70b-instruct-fp8-fast"

/-- Hard-wired fallback model identifier (worker.ts line 167). -/
def FALLBACK_MODEL : String := "@cf/meta/llama-3.1-8b-instruct-fast"

/-- JS `model.toLowerCase()` restricted to the ASCII identifiers involved. -/
def lowerStr (s : String) : Text := s.toList.map Char.toLower

/-- `resolveModel` (worker.ts lines 48-55): absent/empty identifiers and the
    three hard-coded aliases map to the default; anything else is returned
    unchanged. -/
def resolveModel : Option String → String
  | none => DEFAULT_MODEL
  | some s =>
    if s = "" then DEFAULT_MODEL
    else if lowerStr s = "gpt-5".toList ∨ lowerStr s = "gpt5".toList ∨ lowerStr s = "gpt-4.1".toList
    then DEFAULT_MODEL
    else s

/-- A role-tagged message (worker.ts line 119); history entries read back from
    the store may carry arbitrary role strings. -/
structure Msg where
  role : String
  content : Text
deriving DecidableEq

/-- `buildSystemPrompt()` (worker.ts lines 57-70): the fixed generation
    instruction, lines joined by a newline. -/
def systemPromptText : Text :=
  ("You are a helpful, safety-conscious recipe generator.\n" ++
   "Given a list of ingredients the user has on hand, produce:\n" ++
   "- a recipe title\n" ++
   "- 1-2 sentence summary\n" ++
   "- ingredients list (quantities if possible)\n" ++
   "- step-by-step instructions\n" ++
   "- optional tips and substitutions\n" ++
   "Format as plain text with clear sections.\n" ++
   "At the very end of your response, append a single line containing <<<END_OF_RECIPE>>>. Do not output anything after this marker.").toList

/-- Continuation instruction of the primary protocol (worker.ts lines 148-151). -/
def contPrompt1 : Text :=
  ("Continue exactly where you left off. Do not repeat completed sections. " ++
   "Finish any remaining sections. When you are completely finished, append the end marker <<<END_OF_RECIPE>>>.").toList

/-- Continuation instruction of the fallback protocol (worker.ts line 186). -/
def contPrompt2 : Text :=
  "Continue exactly where you left off and finish with <<<END_OF_RECIPE>>>. Do not repeat.".toList

/-- `userPromptFromInputs` (worker.ts lines 72-76). -/
def userPromptFromInputs (ingredients : List String) (extras : Option String) : Text :=
  let list := List.intercalate ['\n'] (ingredients.map (fun s => '-' :: ' ' :: trimText s.toList))
  let extra :=
    match extras with
    | some e =>
      if trimText e.toList ≠ ([] : Text) then
        "\nConstraints or preferences: ".toList ++ trimText e.toList
      else []
    | none => []
  "Here are the ingredients I have:\n".toList ++ list ++ extra ++
    "\nGenerate one approachable recipe. If crucial items are missing, suggest substitutions.".toList

/-- History entries retained for the LLM: only user/assistant roles survive
    (worker.ts lines 121-123). -/
def histFilter (history : List Msg) : List Msg :=
  history.filter (fun h => h.role == "user" || h.role == "assistant")

/-- The message sequence of the first inference call (worker.ts lines 119-125):
    system message, filtered history in order, new user message. -/
def buildMessages (history : List Msg) (uContent : Text) : List Msg :=
  ⟨"system", systemPromptText⟩ :: histFilter history ++ [⟨"user", uContent⟩]

/-- The fresh message sequence of one continuation call
    (worker.ts lines 140-151). -/
def contMsgs (history : List Msg) (uContent full cp : Text) : List Msg :=
  ⟨"system", systemPromptText⟩ :: histFilter history ++
    [⟨"user", uContent⟩, ⟨"assistant", full⟩, ⟨"user", cp⟩]

/-- `full += (full.endsWith("\n") ? "" : "\n") + more` (worker.ts line 153). -/
def appendChunk (full more : Text) : Text :=
  full ++ (if endsWithNL full then [] else ['\n']) ++ more

/-- The auto-continue loop (worker.ts lines 138-155): while the accumulated
    text lacks the sentinel and rounds remain, issue one continuation call and
    append its text.  Returns the final accumulated text (or the first
    inference error) together with the number of continuation calls issued. -/
def contLoop (run : List Msg → Except String Text) (history : List Msg)
    (uContent cp : Text) : Text → Nat → Except String Text × Nat
  | full, 0 => (.ok full, 0)
  | full, n + 1 =>
    if containsSub END full then (.ok full, 0)
    else
      match run (contMsgs history uContent full cp) with
      | .error e => (.error e, 1)
      | .ok more =>
        let r := contLoop run history uContent cp (appendChunk full more) n
        (r.1, r.2 + 1)

/-- One full continuation protocol (worker.ts lines 134-157): first call, then
    the auto-continue loop with a budget of 4 continuation rounds, then strip
    the sentinel and trim.  The second component counts inference calls. -/
def runProtocol (run : List Msg → Except String Text) (history : List Msg)
    (uContent cp : Text) : Except String Text × Nat :=
  match run (buildMessages history uContent) with
  | .error e => (.error e, 1)
  | .ok full0 =>
    let r := contLoop run history uContent cp full0 4
    match r.1 with
    | .error e => (.error e, r.2 + 1)
    | .ok full => (.ok (trimText (stripEnd full)), r.2 + 1)

/-- `slice(-20)`: the most recent `n` entries. -/
def lastN (n : Nat) (l : List Msg) : List Msg := l.drop (l.length - n)

/-- The Durable-Object `/append` endpoint (worker.ts lines 27-37): reject
    falsy role/content without writing, otherwise push and keep the last 20. -/
def doAppend (history : List Msg) (m : Msg) : List Msg :=
  if m.role = "" ∨ m.content = [] then history
  else lastN 20 (history ++ [m])

/-- Behaviour of the external collaborators during one request:
    `run` is the non-streaming inference call for a given model id,
    `runStream` the streaming call (a list of chunks, or a failure before any
    chunk is produced), and `appendOk k` tells whether the `k`-th history
    append issued by the handler resolves (a `false` models `stub.fetch`
    rejecting). -/
structure Fx where
  run : String → List Msg → Except String Text
  runStream : List Msg → Except String (List Text)
  appendOk : Nat → Bool

/-- Response of the non-streaming endpoint. -/
inductive Resp where
  | okJson : String → Text → Bool → Resp
  | badRequest : Resp
  | errorJson : String → Resp
deriving DecidableEq

/-- Response of the streaming endpoint. -/
inductive SResp where
  | stream : List Text → SResp
  | okJson : String → Text → SResp
  | badRequest : SResp
  | errorJson : String → SResp
deriving DecidableEq

/-- Observable outcome of one request: the response, the number of inference
    calls issued, the number of history-append attempts issued, and the final
    session history. -/
structure CoreOut (ρ : Type) where
  resp : ρ
  infers : Nat
  writes : Nat
  store : List Msg
deriving DecidableEq

/-- The `catch` block of the non-streaming handler (worker.ts lines 165-199):
    retry the whole protocol against the fixed fallback model, only when the
    resolved model differs from it; any failure inside the retry (inference or
    append) falls through to a 500 carrying the original error `err`. -/
def catchBlock (fx : Fx) (model : String) (history : List Msg) (uContent : Text)
    (err : String) (n1 w1 : Nat) (store : List Msg) : CoreOut Resp :=
  if model = FALLBACK_MODEL then ⟨.errorJson err, n1, w1, store⟩
  else
    match runProtocol (fx.run FALLBACK_MODEL) history uContent contPrompt2 with
    | (.error _, n2) => ⟨.errorJson err, n1 + n2, w1, store⟩
    | (.ok clean, n2) =>
      if fx.appendOk 2 then
        let s1 := doAppend store ⟨"user", uContent⟩
        if fx.appendOk 3 then
          ⟨.okJson FALLBACK_MODEL clean true, n1 + n2, w1 + 2, doAppend s1 ⟨"assistant", clean⟩⟩
        else ⟨.errorJson err, n1 + n2, w1 + 2, s1⟩
      else ⟨.errorJson err, n1 + n2, w1 + 1, store⟩

/-- The `try`/`catch` body of the non-streaming `/api/recipe` handler after
    validation and history load (worker.ts lines 127-200).  The two history
    appends sit inside the same `try` as generation, so a rejected append
    reaches the `catch` block. -/
def recipeCore (fx : Fx) (model : String) (history : List Msg) (uContent : Text) :
    CoreOut Resp :=
  match runProtocol (fx.run model) history uContent contPrompt1 with
  | (.error e, n1) => catchBlock fx model history uContent e n1 0 history
  | (.ok clean, n1) =>
    if fx.appendOk 0 then
      let s1 := doAppend history ⟨"user", uContent⟩
      if fx.appendOk 1 then
        ⟨.okJson model clean false, n1, 2, doAppend s1 ⟨"assistant", clean⟩⟩
      else catchBlock fx model history uContent "append-failed" n1 2 s1
    else catchBlock fx model history uContent "append-failed" n1 1 history

/-- JS `chunks` accumulation of the background drain (worker.ts lines 237-246). -/
def concatChunks (chunks : List Text) : Text := chunks.foldl (· ++ ·) []

/-- The `try`/`catch` body of the streaming `/api/recipe/stream` handler after
    validation and history load (worker.ts lines 231-271).  When the streaming
    call resolves, the caller receives the stream and the background drain
    persists the accumulated text with append failures swallowed; when it
    rejects, a single non-streaming call against the same model is attempted,
    whose own failure (or an append failure there) yields a 500 carrying the
    original streaming error. -/
def streamCore (fx : Fx) (model : String) (history : List Msg) (uContent : Text) :
    CoreOut SResp :=
  match fx.runStream (buildMessages history uContent) with
  | .ok chunks =>
    ⟨.stream chunks, 1, if fx.appendOk 0 then 2 else 1,
      if fx.appendOk 0 then
        (if fx.appendOk 1 then
          doAppend (doAppend history ⟨"user", uContent⟩) ⟨"assistant", concatChunks chunks⟩
         else doAppend history ⟨"user", uContent⟩)
      else history⟩
  | .error e =>
    match fx.run model (buildMessages history uContent) with
    | .ok text =>
      if fx.appendOk 0 then
        (if fx.appendOk 1 then
          ⟨.okJson model text, 2, 2,
            doAppend (doAppend history ⟨"user", uContent⟩) ⟨"assistant", text⟩⟩
         else ⟨.errorJson e, 2, 2, doAppend history ⟨"user", uContent⟩⟩)
      else ⟨.errorJson e, 2, 1, history⟩
    | .error _ => ⟨.errorJson e, 2, 0, history⟩

/-- Shape of the request body's `ingredients` field as seen after JSON
    parsing: a JSON array of strings, or any non-array value. -/
inductive JField where
  | arr : List String → JField
  | notArr : JField
deriving DecidableEq

/-- JSON request body of the generation endpoints: each field may be absent,
    and `extras`/`model` are used only when they are strings. -/
structure ReqBody where
  ingredients : Option JField
  extras : Option String
  model : Option String

/-- `Array.isArray(body.ingredients) ? body.ingredients : []`
    (worker.ts line 105). -/
def extractIngredients : Option JField → List String
  | some (.arr xs) => xs
  | _ => []

/-- The non-streaming `/api/recipe` handler (worker.ts lines 99-201): extract
    the fields, resolve the model, reject an empty ingredient list before any
    store or inference interaction, otherwise load the history (the one store
    read, counted by the second component) and run the core. -/
def handleRecipe (fx : Fx) (store : List Msg) (body : ReqBody) : CoreOut Resp × Nat :=
  let ingredients := extractIngredients body.ingredients
  let model := resolveModel body.model
  if ingredients.length = 0 then (⟨.badRequest, 0, 0, store⟩, 0)
  else
    let history := store
    (recipeCore fx model history (userPromptFromInputs ingredients body.extras), 1)

end Worker

namespace Worker

/-! ### Basic facts about the sentinel and the scanning functions -/

theorem END_length : END.length = 19 := rfl

theorem isPrefixOf_to_IsPrefix {a b : Text} (h : a.isPrefixOf b = true) :
    List.IsPrefix a b :=
  List.isPrefixOf_iff_prefix.mp h

theorem IsPrefix_to_isPrefixOf {a b : Text} (h : List.IsPrefix a b) :
    a.isPrefixOf b = true :=
  List.isPrefixOf_iff_prefix.mpr h

theorem end_head_of_isPrefixOf {c : Char} {l : Text}
    (h : END.isPrefixOf (c :: l) = true) : c = '<' := by
  obtain ⟨s, hs⟩ := isPrefixOf_to_IsPrefix h
  simp only [END, List.cons_append] at hs
  exact (List.cons.injEq _ _ _ _ ▸ hs).1.symm

theorem end_prefix_length {c : Char} {rest : Text}
    (h : END.isPrefixOf (c :: rest) = true) : 18 ≤ rest.length := by
  have hl := List.IsPrefix.length_le (isPrefixOf_to_IsPrefix h)
  simp only [END_length, List.length_cons] at hl
  omega

theorem end_isPrefixOf_append {l b : Text} (h : END.isPrefixOf l = true) :
    END.isPrefixOf (l ++ b) = true := by
  exact IsPrefix_to_isPrefixOf ((isPrefixOf_to_IsPrefix h).trans (List.prefix_append l b))

theorem mem_of_containsSub {t : Text} (h : containsSub END t = true) : '<' ∈ t := by
  induction t with
  | nil => simp [containsSub, END] at h
  | cons c rest ih =>
    simp only [containsSub, Bool.or_eq_true] at h
    cases h with
    | inl hp => rw [end_head_of_isPrefixOf hp]; exact List.mem_cons_self _ _
    | inr hc => exact List.mem_cons_of_mem _ (ih hc)

theorem containsSub_eq_false_of_not_mem {t : Text} (h : '<' ∉ t) :
    containsSub END t = false := by
  cases hc : containsSub END t with
  | false => rfl
  | true => exact absurd (mem_of_containsSub hc) h

/-! ### Fuel congruence and unfolding for the scanners -/

theorem stripEndF_congr : ∀ (f1 : Nat) (t : Text) (f2 : Nat), t.length ≤ f1 → t.length ≤ f2 →
    stripEndF f1 t = stripEndF f2 t := by
  intro f1
  induction f1 with
  | zero =>
    intro t f2 h1 _
    have ht : t = [] := List.eq_nil_of_length_eq_zero (Nat.le_zero.mp h1)
    subst ht
    cases f2 <;> rfl
  | succ f ih =>
    intro t f2 h1 h2
    cases t with
    | nil => cases f2 <;> rfl
    | cons c rest =>
      cases f2 with
      | zero => simp at h2
      | succ f2' =>
        simp only [stripEndF]
        by_cases hp : END.isPrefixOf (c :: rest) = true
        · rw [if_pos hp, if_pos hp]
          have h18 := end_prefix_length hp
          simp only [List.length_cons] at h1 h2
          apply ih
          · simp only [List.length_drop, END_length]; omega
          · simp only [List.length_drop, END_length]; omega
        · rw [if_neg hp, if_neg hp]
          simp only [List.length_cons] at h1 h2
          congr 1
          exact ih rest f2' (by omega) (by omega)

theorem stripEnd_nil : stripEnd [] = [] := rfl

theorem stripEnd_cons_pos {c : Char} {rest : Text}
    (h : END.isPrefixOf (c :: rest) = true) :
    stripEnd (c :: rest) = stripEnd (List.drop 18 rest) := by
  show stripEndF (c :: rest).length (c :: rest) = stripEndF (List.drop 18 rest).length _
  simp only [List.length_cons, stripEndF, if_pos h, END_length]
  exact stripEndF_congr rest.length _ _ (by simp) (le_refl _)

theorem stripEnd_cons_neg {c : Char} {rest : Text}
    (h : ¬ END.isPrefixOf (c :: rest) = true) :
    stripEnd (c :: rest) = c :: stripEnd rest := by
  show stripEndF (c :: rest).length (c :: rest) = _
  simp only [List.length_cons, stripEndF, if_neg h]
  rfl

theorem sentinelCleanF_congr : ∀ (f1 : Nat) (t : Text) (f2 : Nat),
    t.length ≤ f1 → t.length ≤ f2 → sentinelCleanF f1 t = sentinelCleanF f2 t := by
  intro f1
  induction f1 with
  | zero =>
    intro t f2 h1 _
    have ht : t = [] := List.eq_nil_of_length_eq_zero (Nat.le_zero.mp h1)
    subst ht
    cases f2 <;> rfl
  | succ f ih =>
    intro t f2 h1 h2
    cases t with
    | nil => cases f2 <;> rfl
    | cons c rest =>
      cases f2 with
      | zero => simp at h2
      | succ f2' =>
        simp only [sentinelCleanF]
        by_cases hp : END.isPrefixOf (c :: rest) = true
        · rw [if_pos hp, if_pos hp]
          have h18 := end_prefix_length hp
          simp only [List.length_cons] at h1 h2
          apply ih
          · simp only [List.length_drop, END_length]; omega
          · simp only [List.length_drop, END_length]; omega
        · rw [if_neg hp, if_neg hp]
          simp only [List.length_cons] at h1 h2
          congr 1
          exact ih rest f2' (by omega) (by omega)

theorem sentinelClean_nil : sentinelClean [] = true := rfl

theorem sentinelClean_cons_pos {c : Char} {rest : Text}
    (h : END.isPrefixOf (c :: rest) = true) :
    sentinelClean (c :: rest) = sentinelClean (List.drop 18 rest) := by
  show sentinelCleanF (c :: rest).length (c :: rest) = sentinelCleanF (List.drop 18 rest).length _
  simp only [List.length_cons, sentinelCleanF, if_pos h, END_length]
  exact sentinelCleanF_congr rest.length _ _ (by simp) (le_refl _)

theorem sentinelClean_cons_neg {c : Char} {rest : Text}
    (h : ¬ END.isPrefixOf (c :: rest) = true) :
    sentinelClean (c :: rest) = ((c != '<') && sentinelClean rest) := by
  show sentinelCleanF (c :: rest).length (c :: rest) = _
  simp only [List.length_cons, sentinelCleanF, if_neg h]
  rfl

end Worker

namespace Worker

/-! ### Closure properties of `sentinelClean` and absence of `'<'` after stripping -/

theorem sentinelClean_append : ∀ (f : Nat) (a b : Text), a.length ≤ f →
    sentinelClean a = true → sentinelClean b = true → sentinelClean (a ++ b) = true := by
  intro f
  induction f with
  | zero =>
    intro a b h1 _ hb
    have ha : a = [] := List.eq_nil_of_length_eq_zero (Nat.le_zero.mp h1)
    subst ha
    simpa using hb
  | succ f ih =>
    intro a b h1 ha hb
    cases a with
    | nil => simpa using hb
    | cons c rest =>
      simp only [List.length_cons] at h1
      by_cases hp : END.isPrefixOf (c :: rest) = true
      · have h18 := end_prefix_length hp
        have hp' : END.isPrefixOf ((c :: rest) ++ b) = true := end_isPrefixOf_append hp
        rw [List.cons_append] at hp'
        rw [List.cons_append, sentinelClean_cons_pos hp',
            List.drop_append_of_le_length h18]
        rw [sentinelClean_cons_pos hp] at ha
        exact ih _ b (by simp only [List.length_drop]; omega) ha hb
      · rw [sentinelClean_cons_neg hp] at ha
        obtain ⟨hc, hrest⟩ := Bool.and_eq_true_iff.mp ha
        have hp' : ¬ END.isPrefixOf (c :: (rest ++ b)) = true := by
          intro hx
          rw [end_head_of_isPrefixOf hx] at hc
          simp at hc
        rw [List.cons_append, sentinelClean_cons_neg hp', Bool.and_eq_true_iff]
        exact ⟨hc, ih rest b (by omega) hrest hb⟩

theorem stripEnd_no_lt : ∀ (f : Nat) (t : Text), t.length ≤ f →
    sentinelClean t = true → '<' ∉ stripEnd t := by
  intro f
  induction f with
  | zero =>
    intro t h1 _
    have ht : t = [] := List.eq_nil_of_length_eq_zero (Nat.le_zero.mp h1)
    subst ht
    simp [stripEnd_nil]
  | succ f ih =>
    intro t h1 hc
    cases t with
    | nil => simp [stripEnd_nil]
    | cons c rest =>
      simp only [List.length_cons] at h1
      by_cases hp : END.isPrefixOf (c :: rest) = true
      · rw [stripEnd_cons_pos hp]
        rw [sentinelClean_cons_pos hp] at hc
        exact ih _ (by simp only [List.length_drop]; omega) hc
      · rw [stripEnd_cons_neg hp]
        rw [sentinelClean_cons_neg hp] at hc
        obtain ⟨hne, hrest⟩ := Bool.and_eq_true_iff.mp hc
        intro hmem
        rcases List.mem_cons.mp hmem with heq | hmem'
        · rw [← heq] at hne; simp at hne
        · exact ih rest (by omega) hrest hmem'

theorem mem_of_mem_trimText {c : Char} {t : Text} (h : c ∈ trimText t) : c ∈ t := by
  unfold trimText at h
  rw [List.mem_reverse] at h
  have h2 : c ∈ (t.dropWhile isWS).reverse :=
    (List.dropWhile_suffix isWS).sublist.subset h
  rw [List.mem_reverse] at h2
  exact (List.dropWhile_suffix isWS).sublist.subset h2

theorem sentinelClean_appendChunk {full more : Text} (h1 : sentinelClean full = true)
    (h2 : sentinelClean more = true) : sentinelClean (appendChunk full more) = true := by
  unfold appendChunk

  apply sentinelClean_append (full ++ if endsWithNL full then [] else ['\n']).length _ _
    (le_refl _) _ h2
  apply sentinelClean_append full.length _ _ (le_refl _) h1
  cases endsWithNL full <;> simp <;> decide

/-! ### Properties of the continuation loop and protocol -/

theorem contLoop_clean (run : List Msg → Except String Text)
    (hrun : ∀ msgs t, run msgs = .ok t → sentinelClean t = true)
    (history : List Msg) (u cp : Text) :
    ∀ (n : Nat) (full f : Text), sentinelClean full = true →
      (contLoop run history u cp full n).1 = .ok f → sentinelClean f = true := by
  intro n
  induction n with
  | zero =>
    intro full f hc hf
    simp only [contLoop] at hf
    cases hf
    exact hc
  | succ n ih =>
    intro full f hc hf
    simp only [contLoop] at hf
    by_cases hS : containsSub END full = true
    · rw [if_pos hS] at hf
      cases hf
      exact hc
    · rw [if_neg hS] at hf
      cases hr : run (contMsgs history u full cp) with
      | error e => rw [hr] at hf; simp at hf
      | ok more =>
        rw [hr] at hf
        simp only at hf
        exact ih (appendChunk full more) f
          (sentinelClean_appendChunk hc (hrun _ _ hr)) hf

theorem runProtocol_clean (run : List Msg → Except String Text)
    (hrun : ∀ msgs t, run msgs = .ok t → sentinelClean t = true)
    (history : List Msg) (u cp txt : Text) (n : Nat)
    (h : runProtocol run history u cp = (.ok txt, n)) :
    containsSub END txt = false := by
  unfold runProtocol at h
  cases hr : run (buildMessages history u) with
  | error e => rw [hr] at h; simp at h
  | ok full0 =>
    rw [hr] at h
    simp only at h
    cases hl : (contLoop run history u cp full0 4).1 with
    | error e => rw [hl] at h; simp at h
    | ok full =>
      rw [hl] at h
      simp only [Prod.mk.injEq, Except.ok.injEq] at h
      obtain ⟨htxt, -⟩ := h
      subst htxt
      have hfull : sentinelClean full = true :=
        contLoop_clean run hrun history u cp 4 full0 full (hrun _ _ hr) hl
      apply containsSub_eq_false_of_not_mem
      intro hmem
      exact stripEnd_no_lt full.length full (le_refl _) hfull (mem_of_mem_trimText hmem)

theorem contLoop_count_le (run : List Msg → Except String Text) (history : List Msg)
    (u cp : Text) : ∀ (n : Nat) (full : Text),
    (contLoop run history u cp full n).2 ≤ n := by
  intro n
  induction n with
  | zero => intro full; simp [contLoop]
  | succ n ih =>
    intro full
    simp only [contLoop]
    by_cases hS : containsSub END full = true
    · rw [if_pos hS]; simp
    · rw [if_neg hS]
      cases hr : run (contMsgs history u full cp) with
      | error e => simp
      | ok more =>
        simp only
        exact Nat.succ_le_succ (ih _)

theorem runProtocol_count_le (run : List Msg → Except String Text) (history : List Msg)
    (u cp : Text) : (runProtocol run history u cp).2 ≤ 5 := by
  unfold runProtocol
  cases hr : run (buildMessages history u) with
  | error e => simp
  | ok full0 =>
    simp only
    have hle := contLoop_count_le run history u cp 4 full0
    cases hl : (contLoop run history u cp full0 4).1 <;> simp <;> omega

theorem runProtocol_count_pos (run : List Msg → Except String Text) (history : List Msg)
    (u cp : Text) : 1 ≤ (runProtocol run history u cp).2 := by
  unfold runProtocol
  cases hr : run (buildMessages history u) with
  | error e => simp
  | ok full0 =>
    simp only
    cases hl : (contLoop run history u cp full0 4).1 <;> simp

theorem contLoop_stop {run : List Msg → Except String Text} {history : List Msg}
    {u cp full : Text} {n : Nat} (hS : containsSub END full = true) :
    contLoop run history u cp full (n + 1) = (.ok full, 0) := by
  simp [contLoop, hS]

theorem runProtocol_early (run : List Msg → Except String Text) (history : List Msg)
    (u cp t : Text) (hr : run (buildMessages history u) = .ok t)
    (hS : containsSub END t = true) :
    (runProtocol run history u cp).2 = 1 := by
  unfold runProtocol
  rw [hr]
  simp only
  rw [show (4 : Nat) = 3 + 1 from rfl, contLoop_stop hS]

end Worker

namespace Worker

/-! ### Unfolding lemmas for the request cores -/

theorem recipeCore_error (fx : Fx) (model : String) (history : List Msg) (u : Text)
    (e : String) (n1 : Nat)
    (hp : runProtocol (fx.run model) history u contPrompt1 = (.error e, n1)) :
    recipeCore fx model history u = catchBlock fx model history u e n1 0 history := by
  unfold recipeCore
  rw [hp]

theorem recipeCore_ok (fx : Fx) (model : String) (history : List Msg) (u : Text)
    (clean : Text) (n1 : Nat)
    (hp : runProtocol (fx.run model) history u contPrompt1 = (.ok clean, n1)) :
    recipeCore fx model history u =
      (if fx.appendOk 0 then
        (if fx.appendOk 1 then
          ⟨.okJson model clean false, n1, 2,
            doAppend (doAppend history ⟨"user", u⟩) ⟨"assistant", clean⟩⟩
         else catchBlock fx model history u "append-failed" n1 2
                (doAppend history ⟨"user", u⟩))
       else catchBlock fx model history u "append-failed" n1 1 history) := by
  unfold recipeCore
  rw [hp]

theorem catchBlock_same (fx : Fx) (model : String) (history : List Msg) (u : Text)
    (err : String) (n1 w1 : Nat) (store : List Msg) (hm : model = FALLBACK_MODEL) :
    catchBlock fx model history u err n1 w1 store = ⟨.errorJson err, n1, w1, store⟩ := by
  unfold catchBlock
  rw [if_pos hm]

theorem catchBlock_err (fx : Fx) (model : String) (history : List Msg) (u : Text)
    (err : String) (n1 w1 : Nat) (store : List Msg) (e2 : String) (n2 : Nat)
    (hm : ¬ model = FALLBACK_MODEL)
    (hs : runProtocol (fx.run FALLBACK_MODEL) history u contPrompt2 = (.error e2, n2)) :
    catchBlock fx model history u err n1 w1 store = ⟨.errorJson err, n1 + n2, w1, store⟩ := by
  unfold catchBlock
  rw [if_neg hm, hs]

theorem catchBlock_ok (fx : Fx) (model : String) (history : List Msg) (u : Text)
    (err : String) (n1 w1 : Nat) (store : List Msg) (clean : Text) (n2 : Nat)
    (hm : ¬ model = FALLBACK_MODEL)
    (hs : runProtocol (fx.run FALLBACK_MODEL) history u contPrompt2 = (.ok clean, n2))
    (h2 : fx.appendOk 2 = true) (h3 : fx.appendOk 3 = true) :
    catchBlock fx model history u err n1 w1 store =
      ⟨.okJson FALLBACK_MODEL clean true, n1 + n2, w1 + 2,
        doAppend (doAppend store ⟨"user", u⟩) ⟨"assistant", clean⟩⟩ := by
  unfold catchBlock
  rw [if_neg hm, hs]
  simp only [if_pos h2, if_pos h3]

theorem catchBlock_append2 (fx : Fx) (model : String) (history : List Msg) (u : Text)
    (err : String) (n1 w1 : Nat) (store : List Msg) (clean : Text) (n2 : Nat)
    (hm : ¬ model = FALLBACK_MODEL)
    (hs : runProtocol (fx.run FALLBACK_MODEL) history u contPrompt2 = (.ok clean, n2))
    (h2 : fx.appendOk 2 = false) :
    catchBlock fx model history u err n1 w1 store = ⟨.errorJson err, n1 + n2, w1 + 1, store⟩ := by
  unfold catchBlock
  rw [if_neg hm, hs]
  simp only [h2, Bool.false_eq_true, if_false]

theorem catchBlock_append3 (fx : Fx) (model : String) (history : List Msg) (u : Text)
    (err : String) (n1 w1 : Nat) (store : List Msg) (clean : Text) (n2 : Nat)
    (hm : ¬ model = FALLBACK_MODEL)
    (hs : runProtocol (fx.run FALLBACK_MODEL) history u contPrompt2 = (.ok clean, n2))
    (h2 : fx.appendOk 2 = true) (h3 : fx.appendOk 3 = false) :
    catchBlock fx model history u err n1 w1 store =
      ⟨.errorJson err, n1 + n2, w1 + 2, doAppend store ⟨"user", u⟩⟩ := by
  unfold catchBlock
  rw [if_neg hm, hs]
  simp only [if_pos h2, h3, Bool.false_eq_true, if_false]

theorem streamCore_stream (fx : Fx) (model : String) (history : List Msg) (u : Text)
    (chunks : List Text)
    (hs : fx.runStream (buildMessages history u) = .ok chunks) :
    (streamCore fx model history u).resp = .stream chunks := by
  unfold streamCore
  rw [hs]

theorem streamCore_fb_ok (fx : Fx) (model : String) (history : List Msg) (u : Text)
    (e : String) (t : Text)
    (hs : fx.runStream (buildMessages history u) = .error e)
    (hr : fx.run model (buildMessages history u) = .ok t)
    (h0 : fx.appendOk 0 = true) (h1 : fx.appendOk 1 = true) :
    streamCore fx model history u =
      ⟨.okJson model t, 2, 2, doAppend (doAppend history ⟨"user", u⟩) ⟨"assistant", t⟩⟩ := by
  unfold streamCore
  rw [hs, hr]
  simp only [if_pos h0, if_pos h1]

theorem streamCore_fb_err (fx : Fx) (model : String) (history : List Msg) (u : Text)
    (e e2 : String)
    (hs : fx.runStream (buildMessages history u) = .error e)
    (hr : fx.run model (buildMessages history u) = .error e2) :
    streamCore fx model history u = ⟨.errorJson e, 2, 0, history⟩ := by
  unfold streamCore
  rw [hs, hr]

theorem streamCore_fb_append0 (fx : Fx) (model : String) (history : List Msg) (u : Text)
    (e : String) (t : Text)
    (hs : fx.runStream (buildMessages history u) = .error e)
    (hr : fx.run model (buildMessages history u) = .ok t)
    (h0 : fx.appendOk 0 = false) :
    streamCore fx model history u = ⟨.errorJson e, 2, 1, history⟩ := by
  unfold streamCore
  rw [hs, hr]
  simp only [h0, Bool.false_eq_true, if_false]

theorem streamCore_fb_append1 (fx : Fx) (model : String) (history : List Msg) (u : Text)
    (e : String) (t : Text)
    (hs : fx.runStream (buildMessages history u) = .error e)
    (hr : fx.run model (buildMessages history u) = .ok t)
    (h0 : fx.appendOk 0 = true) (h1 : fx.appendOk 1 = false) :
    streamCore fx model history u = ⟨.errorJson e, 2, 2, doAppend history ⟨"user", u⟩⟩ := by
  unfold streamCore
  rw [hs, hr]
  simp only [if_pos h0, h1, Bool.false_eq_true, if_false]

theorem catchBlock_infers_ge (fx : Fx) (model : String) (history : List Msg) (u : Text)
    (err : String) (n1 w1 : Nat) (store : List Msg) :
    n1 ≤ (catchBlock fx model history u err n1 w1 store).infers := by
  by_cases hm : model = FALLBACK_MODEL
  · rw [catchBlock_same fx model history u err n1 w1 store hm]
  · cases hs : runProtocol (fx.run FALLBACK_MODEL) history u contPrompt2 with
    | mk res n2 =>
      cases res with
      | error e2 =>
        rw [catchBlock_err fx model history u err n1 w1 store e2 n2 hm hs]
        exact Nat.le_add_right _ _
      | ok clean =>
        cases h2 : fx.appendOk 2 with
        | false =>
          rw [catchBlock_append2 fx model history u err n1 w1 store clean n2 hm hs h2]
          exact Nat.le_add_right _ _
        | true =>
          cases h3 : fx.appendOk 3 with
          | false =>
            rw [catchBlock_append3 fx model history u err n1 w1 store clean n2 hm hs h2 h3]
            exact Nat.le_add_right _ _
          | true =>
            rw [catchBlock_ok fx model history u err n1 w1 store clean n2 hm hs h2 h3]
            exact Nat.le_add_right _ _

theorem recipeCore_infers_pos (fx : Fx) (model : String) (history : List Msg) (u : Text) :
    1 ≤ (recipeCore fx model history u).infers := by
  have hpos := runProtocol_count_pos (fx.run model) history u contPrompt1
  cases hp : runProtocol (fx.run model) history u contPrompt1 with
  | mk res n1 =>
    rw [hp] at hpos
    simp only at hpos
    cases res with
    | error e =>
      rw [recipeCore_error fx model history u e n1 hp]
      exact le_trans hpos (catchBlock_infers_ge fx model history u e n1 0 history)
    | ok clean =>
      rw [recipeCore_ok fx model history u clean n1 hp]
      cases h0 : fx.appendOk 0 with
      | false =>
        simp only [h0, Bool.false_eq_true, if_false]
        exact le_trans hpos (catchBlock_infers_ge fx model history u "append-failed" n1 1 history)
      | true =>
        simp only [if_pos h0]
        cases h1 : fx.appendOk 1 with
        | false =>
          simp only [h1, Bool.false_eq_true, if_false]
          exact le_trans hpos
            (catchBlock_infers_ge fx model history u "append-failed" n1 2
              (doAppend history ⟨"user", u⟩))
        | true =>
          simp only [if_pos h1]
          exact hpos

end Worker

namespace Worker

/-! ### Claim C1 -/

def clientAlwaysX : List Msg → Except String Text := fun _ => .ok ['x']

def clientSentinel : List Msg → Except String Text := fun _ => .ok END

/-- C1 counterexample: with an inference client that never emits the sentinel,
    one run of the continuation protocol issues 5 inference calls
    (1 initial + 4 continuation calls), exceeding the claimed bound of 4
    total calls. -/
theorem C1_counterexample : ¬ (runProtocol clientAlwaysX [] [] contPrompt1).2 ≤ 4 := by
  decide

/-- C1 (amended): for every input message sequence and every behaviour of the
    inference client, one run of the continuation protocol issues at most 5
    inference calls (1 initial call plus at most 4 continuation calls),
    stopping earlier as soon as the accumulated text contains the completion
    sentinel: at every round and for every remaining budget, an accumulated
    text containing the sentinel makes the loop issue zero further calls and
    return it unchanged; in particular exactly 1 call is issued when the
    first response already carries the sentinel. -/
theorem C1_amended_call_budget (run : List Msg → Except String Text)
    (history : List Msg) (u cp : Text) :
    (runProtocol run history u cp).2 ≤ 5 ∧
    (∀ n full, containsSub END full = true →
      contLoop run history u cp full n = (.ok full, 0)) ∧
    (∀ t, run (buildMessages history u) = .ok t → containsSub END t = true →
      (runProtocol run history u cp).2 = 1) :=
  ⟨runProtocol_count_le run history u cp,
   fun n full hS => by
     cases n with
     | zero => rfl
     | succ n => exact contLoop_stop hS,
   fun t hr hS => runProtocol_early run history u cp t hr hS⟩

/-- Witness for C1: at a concrete client whose first response carries the
    sentinel, the budget holds, a mid-protocol accumulated text containing
    the sentinel stops the loop with zero further calls, and the protocol
    issues exactly 1 call. -/
theorem C1_witness :
    (runProtocol clientSentinel [] [] contPrompt1).2 ≤ 5 ∧
    contLoop clientSentinel [] [] contPrompt1 END 3 = (.ok END, 0) ∧
    (runProtocol clientSentinel [] [] contPrompt1).2 = 1 :=
  ⟨(C1_amended_call_budget clientSentinel [] [] contPrompt1).1,
   (C1_amended_call_budget clientSentinel [] [] contPrompt1).2.1 3 END (by decide),
   (C1_amended_call_budget clientSentinel [] [] contPrompt1).2.2 END rfl (by decide)⟩

/-! ### Claim C4 -/

/-- C4 counterexample: an unrecognized requested identifier is not mapped to
    the fixed default identifier — it is returned unchanged. -/
theorem C4_counterexample :
    resolveModel (some "mistral-large-2") = "mistral-large-2" ∧
    resolveModel (some "mistral-large-2") ≠ DEFAULT_MODEL := by
  exact ⟨by decide, by decide⟩

/-- C4 (amended): model-identifier resolution is a pure function mapping an
    absent or empty identifier and the three hard-coded aliases
    (gpt-5 / gpt5 / gpt-4.1, case-insensitively) to the fixed default, and
    returning every other identifier — supported or not — unchanged; in
    particular resolve("gpt-5") and resolve(none) yield the default and the
    supported identifier is returned unchanged. -/
theorem C4_amended_resolveModel :
    resolveModel none = DEFAULT_MODEL ∧
    resolveModel (some "gpt-5") = DEFAULT_MODEL ∧
    resolveModel (some "@cf/meta/llama-3.1-8b-instruct-fast") =
      "@cf/meta/llama-3.1-8b-instruct-fast" ∧
    ∀ s : String, ¬ s = "" →
      ¬ (lowerStr s = "gpt-5".toList ∨ lowerStr s = "gpt5".toList ∨
         lowerStr s = "gpt-4.1".toList) →
      resolveModel (some s) = s := by
  refine ⟨rfl, by decide, by decide, ?_⟩
  intro s hs hm
  show (if s = "" then DEFAULT_MODEL
        else if lowerStr s = "gpt-5".toList ∨ lowerStr s = "gpt5".toList ∨
               lowerStr s = "gpt-4.1".toList
        then DEFAULT_MODEL else s) = s
  rw [if_neg hs, if_neg hm]

/-- Witness for C4: the general pass-through clause at a concrete
    unrecognized identifier. -/
theorem C4_witness : resolveModel (some "foo-model") = "foo-model" :=
  C4_amended_resolveModel.2.2.2 "foo-model" (by decide) (by decide)

/-! ### Claim C6 -/

/-- C6: an empty extracted ingredient list is rejected before any external
    interaction: the response is the 400 bad-request, zero inference calls
    are issued, zero history appends are attempted, zero store reads happen
    (second component), and the session history is returned unchanged. -/
theorem C6_empty_input (fx : Fx) (store : List Msg) (body : ReqBody)
    (h : extractIngredients body.ingredients = []) :
    handleRecipe fx store body = (⟨.badRequest, 0, 0, store⟩, 0) := by
  simp [handleRecipe, h]

def fx0 : Fx := ⟨fun _ _ => .ok END, fun _ => .ok [], fun _ => true⟩

def body0 : ReqBody := ⟨none, none, none⟩

/-- Witness for C6 at a concrete request with no ingredients field. -/
theorem C6_witness : handleRecipe fx0 [] body0 = (⟨.badRequest, 0, 0, []⟩, 0) :=
  C6_empty_input fx0 [] body0 rfl

/-! ### Claim C7 -/

/-- C7: for every stored history and every message accepted by the
    Durable-Object append endpoint, the stored log afterwards has at most 20
    entries, is a suffix of the old log extended with the new message (so
    only the oldest entries are evicted), and its length is exactly
    `min (old + 1) 20` (so the most recent 20 are kept). -/
theorem C7_history_bound (history : List Msg) (m : Msg)
    (hrole : m.role ≠ "") (hcontent : m.content ≠ []) :
    (doAppend history m).length ≤ 20 ∧
    doAppend history m <:+ history ++ [m] ∧
    (doAppend history m).length = min (history.length + 1) 20 := by
  have hv : ¬ (m.role = "" ∨ m.content = []) := by
    rintro (h | h)
    · exact hrole h
    · exact hcontent h
  unfold doAppend lastN
  rw [if_neg hv]
  refine ⟨?_, List.drop_suffix _ _, ?_⟩
  · simp only [List.length_drop, List.length_append, List.length_cons, List.length_nil]
    omega
  · simp only [List.length_drop, List.length_append, List.length_cons, List.length_nil]
    omega

def hist20 : List Msg := List.replicate 20 ⟨"user", ['a']⟩

/-- Witness for C7: appending to a full 20-entry log keeps the bound and
    evicts from the front. -/
theorem C7_witness :
    (doAppend hist20 ⟨"user", ['b']⟩).length ≤ 20 ∧
    doAppend hist20 ⟨"user", ['b']⟩ <:+ hist20 ++ [⟨"user", ['b']⟩] ∧
    (doAppend hist20 ⟨"user", ['b']⟩).length = min (hist20.length + 1) 20 :=
  C7_history_bound hist20 ⟨"user", ['b']⟩ (by decide) (by decide)

/-! ### Claim C9 -/

/-- C9: for every stored history (arbitrary roles included) the constructed
    inference sequence starts with the single system message, contains only
    system/user/assistant roles, has exactly one system entry, keeps the
    retained history entries in their original order (the filtered history
    is a sublist of the history), and ends with the new user message. -/
theorem C9_message_sequence (history : List Msg) (uc : Text) :
    (buildMessages history uc).head? = some ⟨"system", systemPromptText⟩ ∧
    (∀ m ∈ buildMessages history uc,
      m.role = "system" ∨ m.role = "user" ∨ m.role = "assistant") ∧
    List.countP (fun m => m.role == "system") (buildMessages history uc) = 1 ∧
    List.Sublist (histFilter history) history ∧
    (buildMessages history uc).getLast? = some ⟨"user", uc⟩ ∧
    buildMessages history uc =
      ⟨"system", systemPromptText⟩ :: (histFilter history ++ [⟨"user", uc⟩]) := by
  refine ⟨rfl, ?_, ?_, List.filter_sublist history, ?_, rfl⟩
  · intro m hm
    rcases List.mem_cons.mp hm with rfl | hm'
    · left; rfl
    rcases List.mem_append.mp hm' with hf | hu
    · have := (List.mem_filter.mp hf).2
      rcases Bool.or_eq_true_iff.mp this with h | h
      · right; left; exact eq_of_beq h
      · right; right; exact eq_of_beq h
    · rcases List.mem_singleton.mp hu with rfl
      right; left; rfl
  · show List.countP _ (⟨"system", systemPromptText⟩ :: (histFilter history ++ [⟨"user", uc⟩])) = 1
    rw [List.countP_cons_of_pos _ _ (by decide), List.countP_append]
    have hf : List.countP (fun m => m.role == "system") (histFilter history) = 0 := by
      rw [List.countP_eq_zero]
      intro m hm hsys
      have := (List.mem_filter.mp hm).2
      have hrole : m.role = "system" := eq_of_beq hsys
      rw [hrole] at this
      simp at this
    rw [hf]
    have hu : List.countP (fun m => m.role == "system") [(⟨"user", uc⟩ : Msg)] = 0 := by
      rw [List.countP_eq_zero]
      intro a ha
      rcases List.mem_singleton.mp ha with rfl
      simp
    rw [hu]
  · show List.getLast? (⟨"system", systemPromptText⟩ :: (histFilter history ++ [⟨"user", uc⟩])) = _
    rw [show (⟨"system", systemPromptText⟩ : Msg) :: (histFilter history ++ [⟨"user", uc⟩]) =
      (⟨"system", systemPromptText⟩ :: histFilter history) ++ [⟨"user", uc⟩] from rfl]
    exact List.getLast?_concat _

def history0 : List Msg := [⟨"tool", ['z']⟩, ⟨"assistant", ['w']⟩]

/-- Witness for C9 at a concrete history containing a foreign role. -/
theorem C9_witness :
    (buildMessages history0 ['q']).head? = some ⟨"system", systemPromptText⟩ ∧
    (∀ m ∈ buildMessages history0 ['q'],
      m.role = "system" ∨ m.role = "user" ∨ m.role = "assistant") ∧
    List.countP (fun m => m.role == "system") (buildMessages history0 ['q']) = 1 ∧
    List.Sublist (histFilter history0) history0 ∧
    (buildMessages history0 ['q']).getLast? = some ⟨"user", ['q']⟩ ∧
    buildMessages history0 ['q'] =
      ⟨"system", systemPromptText⟩ :: (histFilter history0 ++ [⟨"user", ['q']⟩]) :=
  C9_message_sequence history0 ['q']

/-! ### Claim C10 -/

/-- C10: validation inspects only the shape of the ingredients field: an
    absent field and a non-array field behave exactly as the empty list,
    while every non-empty array — even one of empty or whitespace-only
    strings — passes validation and at least one inference call is issued. -/
theorem C10_shape_only_validation :
    (∀ fx store e m, handleRecipe fx store ⟨none, e, m⟩ =
      handleRecipe fx store ⟨some (.arr []), e, m⟩) ∧
    (∀ fx store e m, handleRecipe fx store ⟨some .notArr, e, m⟩ =
      handleRecipe fx store ⟨some (.arr []), e, m⟩) ∧
    (∀ fx store e m xs, xs ≠ ([] : List String) →
      1 ≤ (handleRecipe fx store ⟨some (.arr xs), e, m⟩).1.infers) := by
  refine ⟨fun fx store e m => rfl, fun fx store e m => rfl, ?_⟩
  intro fx store e m xs hxs
  have hlen : ¬ (extractIngredients (some (.arr xs))).length = 0 := by
    simp only [extractIngredients]
    intro h
    exact hxs (List.eq_nil_of_length_eq_zero h)
  simp only [handleRecipe, hlen, if_false]
  exact recipeCore_infers_pos fx (resolveModel m) store
    (userPromptFromInputs (extractIngredients (some (.arr xs))) e)

/-- Witness for C10: a single whitespace-only ingredient passes validation
    and triggers an inference call. -/
theorem C10_witness :
    1 ≤ (handleRecipe fx0 [] ⟨some (.arr [" "]), none, none⟩).1.infers :=
  C10_shape_only_validation.2.2 fx0 [] none none [" "] (by decide)

end Worker

namespace Worker

/-! ### Claim C5 -/

/-- C5: when the primary protocol fails: no retry happens when the resolved
    model already equals the fixed fallback model (the caller gets the
    original error); when it differs and the fallback protocol also fails,
    the single terminal error carries the original primary failure's detail
    (not the fallback's); and when the fallback protocol succeeds (its two
    appends resolving), the response is the fallback model's own
    freshly-computed protocol text with the fallback flag set — the retry
    restarts the entire continuation protocol from zero, mixing in no
    partial primary output. -/
theorem C5_fallback_policy (fx : Fx) (model : String) (history : List Msg)
    (u : Text) (e : String) (n1 : Nat)
    (hp : runProtocol (fx.run model) history u contPrompt1 = (.error e, n1)) :
    (model = FALLBACK_MODEL → (recipeCore fx model history u).resp = .errorJson e) ∧
    (¬ model = FALLBACK_MODEL →
      ∀ e2 n2, runProtocol (fx.run FALLBACK_MODEL) history u contPrompt2 = (.error e2, n2) →
        (recipeCore fx model history u).resp = .errorJson e) ∧
    (¬ model = FALLBACK_MODEL →
      ∀ t n2, runProtocol (fx.run FALLBACK_MODEL) history u contPrompt2 = (.ok t, n2) →
        fx.appendOk 2 = true → fx.appendOk 3 = true →
        (recipeCore fx model history u).resp = .okJson FALLBACK_MODEL t true) := by
  rw [recipeCore_error fx model history u e n1 hp]
  refine ⟨?_, ?_, ?_⟩
  · intro hm
    rw [catchBlock_same fx model history u e n1 0 history hm]
  · intro hm e2 n2 hs
    rw [catchBlock_err fx model history u e n1 0 history e2 n2 hm hs]
  · intro hm t n2 hs h2 h3
    rw [catchBlock_ok fx model history u e n1 0 history t n2 hm hs h2 h3]

def fxC5 : Fx :=
  ⟨fun m _ => if m = FALLBACK_MODEL then .ok END else .error "primary-down",
   fun _ => .ok [], fun _ => true⟩

/-- Witness for C5: a primary model that always fails with a distinct
    secondary that always succeeds yields the secondary's text with the
    fallback flag set. -/
theorem C5_witness :
    (recipeCore fxC5 DEFAULT_MODEL [] ['x']).resp = .okJson FALLBACK_MODEL [] true :=
  (C5_fallback_policy fxC5 DEFAULT_MODEL [] ['x'] "primary-down" 1 rfl).2.2
    (by decide) [] 1 rfl rfl rfl

/-! ### Claim C3 -/

def fxC3 : Fx := ⟨fun _ _ => .ok END, fun _ => .ok [], fun _ => false⟩

/-- C3 counterexample: in the non-streaming path, generation succeeds but the
    first history append rejects; with the resolved model equal to the
    fallback model, the caller receives the 500 error response instead of the
    successfully generated text — the persistence failure unwinds the main
    response path. -/
theorem C3_counterexample :
    (recipeCore fxC3 FALLBACK_MODEL [] ['x']).resp = .errorJson "append-failed" := rfl

/-- C3 (amended): persistence failures are isolated from the caller only in
    the streaming path: whenever the streaming call yields a stream, the
    caller receives exactly that stream for every append behaviour — the
    background drain's append failures are swallowed; in the non-streaming
    path an append failure after successful generation instead reaches the
    catch handler and can surface as a failure (see the counterexample). -/
theorem C3_amended_streaming_isolation (fx : Fx) (model : String)
    (history : List Msg) (u : Text) (chunks : List Text)
    (hs : fx.runStream (buildMessages history u) = .ok chunks) :
    (streamCore fx model history u).resp = .stream chunks :=
  streamCore_stream fx model history u chunks hs

def fxC3w : Fx := ⟨fun _ _ => .error "down", fun _ => .ok [['h'], ['i']], fun _ => false⟩

/-- Witness for C3 at a stream of two chunks with every append rejecting. -/
theorem C3_witness : (streamCore fxC3w DEFAULT_MODEL [] ['x']).resp = .stream [['h'], ['i']] :=
  C3_amended_streaming_isolation fxC3w DEFAULT_MODEL [] ['x'] [['h'], ['i']] rfl

/-! ### Claim C2 -/

def fxC2 : Fx :=
  ⟨fun m _ => if m = FALLBACK_MODEL then .ok END else .error "primary-down",
   fun _ => .error "stream-down", fun _ => true⟩

/-- C2 counterexample: the streaming call fails before producing any content;
    under the claimed full FallbackPolicy behaviour the distinct secondary
    model (which here always succeeds) would produce a materialized JSON
    success, but the code issues only a single non-streaming call against the
    same model, which fails, and returns the error response. -/
theorem C2_counterexample :
    (streamCore fxC2 DEFAULT_MODEL [] ['x']).resp = .errorJson "stream-down" := rfl

/-- C2 (amended): when the initial streaming call fails before producing any
    content, the handler falls back to a single non-streaming inference call
    against the same model — no continuation protocol and no secondary-model
    retry.  The caller never receives a stream (exactly one response shape,
    no partial stream); on success of that call with both appends resolving
    it receives a materialized JSON success for the same model, and on its
    failure a JSON error carrying the original streaming failure's detail. -/
theorem C2_amended_stream_fallback (fx : Fx) (model : String) (history : List Msg)
    (u : Text) (e : String)
    (hs : fx.runStream (buildMessages history u) = .error e) :
    (∀ chunks, (streamCore fx model history u).resp ≠ .stream chunks) ∧
    (∀ t, fx.run model (buildMessages history u) = .ok t →
      fx.appendOk 0 = true → fx.appendOk 1 = true →
      (streamCore fx model history u).resp = .okJson model t) ∧
    (∀ e2, fx.run model (buildMessages history u) = .error e2 →
      (streamCore fx model history u).resp = .errorJson e) := by
  refine ⟨?_, ?_, ?_⟩
  · intro chunks
    cases hr : fx.run model (buildMessages history u) with
    | ok t =>
      cases h0 : fx.appendOk 0 with
      | true =>
        cases h1 : fx.appendOk 1 with
        | true => rw [streamCore_fb_ok fx model history u e t hs hr h0 h1]; simp
        | false => rw [streamCore_fb_append1 fx model history u e t hs hr h0 h1]; simp
      | false => rw [streamCore_fb_append0 fx model history u e t hs hr h0]; simp
    | error e2 => rw [streamCore_fb_err fx model history u e e2 hs hr]; simp
  · intro t hr h0 h1
    rw [streamCore_fb_ok fx model history u e t hs hr h0 h1]
  · intro e2 hr
    rw [streamCore_fb_err fx model history u e e2 hs hr]

def fxC2w : Fx := ⟨fun _ _ => .ok ['o', 'k'], fun _ => .error "stream-down", fun _ => true⟩

/-- Witness for C2: a failed stream followed by a successful single
    non-streaming call yields the materialized JSON success. -/
theorem C2_witness :
    (streamCore fxC2w DEFAULT_MODEL [] ['x']).resp = .okJson DEFAULT_MODEL ['o', 'k'] :=
  (C2_amended_stream_fallback fxC2w DEFAULT_MODEL [] ['x'] "stream-down" rfl).2.1
    ['o', 'k'] rfl rfl rfl

end Worker

namespace Worker

/-! ### Claim C8 -/

theorem recipeCore_ok_ok (fx : Fx) (model : String) (history : List Msg) (u : Text)
    (clean : Text) (n1 : Nat)
    (hp : runProtocol (fx.run model) history u contPrompt1 = (.ok clean, n1))
    (h0 : fx.appendOk 0 = true) (h1 : fx.appendOk 1 = true) :
    recipeCore fx model history u =
      ⟨.okJson model clean false, n1, 2,
        doAppend (doAppend history ⟨"user", u⟩) ⟨"assistant", clean⟩⟩ := by
  unfold recipeCore
  rw [hp]
  simp only [if_pos h0, if_pos h1]

theorem recipeCore_ok_append0 (fx : Fx) (model : String) (history : List Msg) (u : Text)
    (clean : Text) (n1 : Nat)
    (hp : runProtocol (fx.run model) history u contPrompt1 = (.ok clean, n1))
    (h0 : fx.appendOk 0 = false) :
    recipeCore fx model history u =
      catchBlock fx model history u "append-failed" n1 1 history := by
  unfold recipeCore
  rw [hp]
  simp only [h0, Bool.false_eq_true, if_false]

theorem recipeCore_ok_append1 (fx : Fx) (model : String) (history : List Msg) (u : Text)
    (clean : Text) (n1 : Nat)
    (hp : runProtocol (fx.run model) history u contPrompt1 = (.ok clean, n1))
    (h0 : fx.appendOk 0 = true) (h1 : fx.appendOk 1 = false) :
    recipeCore fx model history u =
      catchBlock fx model history u "append-failed" n1 2 (doAppend history ⟨"user", u⟩) := by
  unfold recipeCore
  rw [hp]
  simp only [if_pos h0, h1, Bool.false_eq_true, if_false]

theorem catchBlock_okJson_clean (fx : Fx) (model : String) (history : List Msg)
    (u : Text) (err : String) (n1 w1 : Nat) (store : List Msg)
    (hclean : ∀ m msgs t, fx.run m msgs = .ok t → sentinelClean t = true)
    (mu : String) (r : Text) (fb : Bool)
    (h : (catchBlock fx model history u err n1 w1 store).resp = .okJson mu r fb) :
    containsSub END r = false := by
  by_cases hm : model = FALLBACK_MODEL
  · rw [catchBlock_same fx model history u err n1 w1 store hm] at h
    simp at h
  · cases hs : runProtocol (fx.run FALLBACK_MODEL) history u contPrompt2 with
    | mk res n2 =>
      cases res with
      | error e2 =>
        rw [catchBlock_err fx model history u err n1 w1 store e2 n2 hm hs] at h
        simp at h
      | ok clean =>
        cases h2 : fx.appendOk 2 with
        | false =>
          rw [catchBlock_append2 fx model history u err n1 w1 store clean n2 hm hs h2] at h
          simp at h
        | true =>
          cases h3 : fx.appendOk 3 with
          | false =>
            rw [catchBlock_append3 fx model history u err n1 w1 store clean n2 hm hs h2 h3] at h
            simp at h
          | true =>
            rw [catchBlock_ok fx model history u err n1 w1 store clean n2 hm hs h2 h3] at h
            simp only [Resp.okJson.injEq] at h
            obtain ⟨-, h2r, -⟩ := h
            subst h2r
            exact runProtocol_clean (fx.run FALLBACK_MODEL)
              (fun msgs t ht => hclean FALLBACK_MODEL msgs t ht)
              history u contPrompt2 clean n2 hs

/-- C8 counterexample: a client output from which one-pass sentinel removal
    splices a new occurrence together — here `generate` succeeds and the
    text returned to the caller equals the completion sentinel itself. -/
theorem C8_counterexample :
    (recipeCore
        ⟨fun _ _ => .ok ("<<<END_OF".toList ++ END ++ "_RECIPE>>>".toList),
         fun _ => .ok [], fun _ => true⟩
        DEFAULT_MODEL [] ['x']).resp = .okJson DEFAULT_MODEL END false ∧
    containsSub END END = true :=
  ⟨rfl, by decide⟩

/-- C8 (amended): the returned text is the accumulated text with every
    sentinel occurrence removed in one left-to-right non-overlapping pass and
    with surrounding whitespace trimmed; whenever every text the inference
    client returns contains the character '<' only within complete sentinel
    occurrences (the `sentinelClean` check), a successful response contains
    no sentinel — but removal can splice a new occurrence out of adversarial
    fragments, so the unconditional claim fails (see the counterexample). -/
theorem C8_amended_sentinel_stripping (fx : Fx) (model : String) (history : List Msg)
    (u : Text)
    (hclean : ∀ m msgs t, fx.run m msgs = .ok t → sentinelClean t = true)
    (mu : String) (r : Text) (fb : Bool)
    (h : (recipeCore fx model history u).resp = .okJson mu r fb) :
    containsSub END r = false := by
  cases hp : runProtocol (fx.run model) history u contPrompt1 with
  | mk res n1 =>
    cases res with
    | error e =>
      rw [recipeCore_error fx model history u e n1 hp] at h
      exact catchBlock_okJson_clean fx model history u e n1 0 history hclean mu r fb h
    | ok clean =>
      cases h0 : fx.appendOk 0 with
      | false =>
        rw [recipeCore_ok_append0 fx model history u clean n1 hp h0] at h
        exact catchBlock_okJson_clean fx model history u "append-failed" n1 1 history
          hclean mu r fb h
      | true =>
        cases h1 : fx.appendOk 1 with
        | false =>
          rw [recipeCore_ok_append1 fx model history u clean n1 hp h0 h1] at h
          exact catchBlock_okJson_clean fx model history u "append-failed" n1 2
            (doAppend history ⟨"user", u⟩) hclean mu r fb h
        | true =>
          rw [recipeCore_ok_ok fx model history u clean n1 hp h0 h1] at h
          simp only [Resp.okJson.injEq] at h
          obtain ⟨-, h2r, -⟩ := h
          subst h2r
          exact runProtocol_clean (fx.run model)
            (fun msgs t ht => hclean model msgs t ht)
            history u contPrompt1 clean n1 hp

def fxC8 : Fx :=
  ⟨fun _ _ => .ok ("A tasty recipe.\n".toList ++ END), fun _ => .ok [], fun _ => true⟩

/-- Witness for C8: a well-behaved client whose output carries '<' only in
    the final sentinel yields a sentinel-free response. -/
theorem C8_witness : containsSub END "A tasty recipe.".toList = false :=
  C8_amended_sentinel_stripping fxC8 DEFAULT_MODEL [] ['x']
    (fun _ _ t ht => by cases ht; decide)
    DEFAULT_MODEL "A tasty recipe.".toList false rfl

end Worker
